import Mathlib

/-
Verification of the setlist-maker specification against a shallow embedding
of `src/main.py`.

The embedding keeps the source's names where Lean allows it.  Machine-level
caveats of the model, stated once here:

* Python `int(...)` is modelled by `pyIntChars`: optional surrounding ASCII
  whitespace, an optional sign, then a nonempty run of ASCII digits.  The
  source-language function additionally accepts underscores between digits
  and non-ASCII Unicode digits; no claim exercises those inputs.
* Python `str.isdigit` is modelled by `pyIsDigit` (nonempty, all ASCII
  digits); the source-language version also accepts some non-ASCII digit
  characters, on which `int(...)` may then fail.  No claim exercises them.
* The PDF cursor arithmetic of `export_pdf` is carried out exactly in
  integer millimetre units (all constants in the source are integer
  multiples of `mm` and A4 is 210mm x 297mm), rather than in floating
  point as reportlab does.
* JSON values are the inductive `JValue`; a field value of an unexpected
  JSON type is treated as a load failure (in the Python source the outcome
  of that corner depends on Qt overload resolution; no claim relies on it).
-/

set_option linter.unusedVariables false

namespace SetlistMaker

/-! ## Character and digit utilities -/

/-- ASCII digit test (model of the digit class used by Python `str.isdigit`
and `int` on the inputs exercised here). -/
def isAsciiDigit (c : Char) : Bool := '0' ≤ c && c ≤ '9'

/-- Numeric value of an ASCII digit character. -/
def charVal (c : Char) : Nat := c.toNat - 48

/-- The ASCII digit character for a digit value (model of Python decimal
rendering of a single digit). -/
def digitChar (d : Nat) : Char :=
  match d with
  | 0 => '0' | 1 => '1' | 2 => '2' | 3 => '3' | 4 => '4'
  | 5 => '5' | 6 => '6' | 7 => '7' | 8 => '8' | _ => '9'

/-- Decimal rendering of a natural number (model of Python `str(n)` /
`f-string` rendering for nonnegative integers). -/
def natChars (n : Nat) : List Char :=
  if h : n < 10 then [digitChar n]
  else natChars (n / 10) ++ [digitChar (n % 10)]
termination_by n
decreasing_by
  exact Nat.div_lt_self (by omega) (by omega)

/-- Decimal rendering as a `String`. -/
def natStr (n : Nat) : String := String.mk (natChars n)

/-- Value of a run of ASCII digit characters. -/
def digitsVal (cs : List Char) : Nat := cs.foldl (fun a c => a * 10 + charVal c) 0

/-- Splitting a character list at every separator, keeping empty pieces:
model of `re.split` with a single character class. -/
def splitOn (p : Char → Bool) : List Char → List (List Char)
  | [] => [[]]
  | c :: cs =>
    if p c then [] :: splitOn p cs
    else
      match splitOn p cs with
      | [] => [[c]]
      | q :: qs => (c :: q) :: qs

/-- The separators of `parse_time`: ASCII colon and the full-width colon. -/
def isColon (c : Char) : Bool := c == ':' || c == '：'

/-- ASCII whitespace stripped by Python `int(...)`. -/
def isPySpace (c : Char) : Bool :=
  c == ' ' || c == '\t' || c == '\n' || c == '\r' || c == '\x0b' || c == '\x0c'

/-- Strip surrounding whitespace (model of the stripping done by
Python `int(...)`). -/
def stripChars (cs : List Char) : List Char :=
  ((cs.dropWhile isPySpace).reverse.dropWhile isPySpace).reverse

/-- A nonempty all-digit run parses to its value, anything else fails. -/
def digitsOnly (ds : List Char) : Option Nat :=
  if ds.isEmpty then none
  else if ds.all isAsciiDigit then some (digitsVal ds) else none

/-- Sign handling of Python `int(s)` after whitespace stripping. -/
def pyIntStripped : List Char → Option Int
  | [] => none
  | c :: ds =>
    if c = '+' then (digitsOnly ds).map (fun n => (n : Int))
    else if c = '-' then (digitsOnly ds).map (fun n => -(n : Int))
    else (digitsOnly (c :: ds)).map (fun n => (n : Int))

/-- Model of Python `int(s)` on a character list: strip whitespace, one
optional sign, then a nonempty digit run; `none` models a raised
`ValueError`. -/
def pyIntChars (cs : List Char) : Option Int := pyIntStripped (stripChars cs)

/-- Model of Python `str.isdigit` (ASCII fragment). -/
def pyIsDigit (cs : List Char) : Bool := !cs.isEmpty && cs.all isAsciiDigit

/-- `SetlistApp.parse_time` (src/main.py lines 406-415): split on `:` or
`：`; two parts parse as `M*60 + S`; one all-digit part parses as minutes;
every failure (including a raised `ValueError`, modelled by `Option`)
yields `0`.  The function is total: it never raises to its caller. -/
def parse_time (time_str : String) : Int :=
  match splitOn isColon time_str.data with
  | [p1, p2] =>
    match pyIntChars p1, pyIntChars p2 with
    | some m, some s => m * 60 + s
    | _, _ => 0
  | [p] =>
    if pyIsDigit p then
      match pyIntChars p with
      | some n => n * 60
      | none => 0
    else 0
  | _ => 0

/-- Zero-pad a decimal rendering to width two: model of `f"{k:02}"` for a
natural number. -/
def pad2 (k : Nat) : List Char :=
  if (natChars k).length < 2 then '0' :: natChars k else natChars k

/-- The `MM:SS` formatting used for the total-time labels
(`f"{m:02}:{s:02}"` with `m = n // 60`, `s = n % 60`) for a nonnegative
number of seconds. -/
def format_time (n : Nat) : String :=
  String.mk (pad2 (n / 60) ++ ':' :: pad2 (n % 60))

/-! ## Basic lemmas about digits and splitting -/

theorem charVal_digitChar {d : Nat} (h : d < 10) : charVal (digitChar d) = d := by
  interval_cases d <;> rfl

theorem isAsciiDigit_digitChar {d : Nat} (h : d < 10) : isAsciiDigit (digitChar d) = true := by
  interval_cases d <;> rfl

theorem natChars_ne_nil (n : Nat) : natChars n ≠ [] := by
  rw [natChars]
  split
  · simp
  · simp

theorem natChars_all_digits (n : Nat) : (natChars n).all isAsciiDigit = true := by
  induction n using Nat.strong_induction_on with
  | _ n ih =>
    rw [natChars]
    split
    · next h => simp [isAsciiDigit_digitChar h]
    · next h =>
      have h10 : n / 10 < n := Nat.div_lt_self (by omega) (by omega)
      have hd : n % 10 < 10 := Nat.mod_lt _ (by omega)
      simp only [List.all_append, Bool.and_eq_true]
      exact ⟨ih _ h10, by simp [isAsciiDigit_digitChar hd]⟩

theorem digitsVal_append_singleton (cs : List Char) (c : Char) :
    digitsVal (cs ++ [c]) = digitsVal cs * 10 + charVal c := by
  simp [digitsVal, List.foldl_append]

theorem digitsVal_natChars (n : Nat) : digitsVal (natChars n) = n := by
  induction n using Nat.strong_induction_on with
  | _ n ih =>
    rw [natChars]
    split
    · next h =>
      simp [digitsVal, charVal_digitChar h]
    · next h =>
      have h10 : n / 10 < n := Nat.div_lt_self (by omega) (by omega)
      have hd : n % 10 < 10 := Nat.mod_lt _ (by omega)
      rw [digitsVal_append_singleton, ih _ h10, charVal_digitChar hd]
      omega

theorem splitOn_ne_nil (p : Char → Bool) (cs : List Char) : splitOn p cs ≠ [] := by
  induction cs with
  | nil => simp [splitOn]
  | cons c cs ih =>
    rw [splitOn]
    split
    · simp
    · split
      · simp
      · simp

/-- A separator-free list splits into itself alone. -/
theorem splitOn_of_no_sep (p : Char → Bool) (cs : List Char)
    (h : cs.all (fun c => !p c) = true) : splitOn p cs = [cs] := by
  induction cs with
  | nil => rfl
  | cons c cs ih =>
    simp only [List.all_cons, Bool.and_eq_true, Bool.not_eq_true'] at h
    rw [splitOn, if_neg (by simp [h.1]), ih h.2]

/-- Splitting around one separator occurrence. -/
theorem splitOn_append_sep (p : Char → Bool) (a b : List Char) (c : Char)
    (ha : a.all (fun x => !p x) = true) (hc : p c = true) :
    splitOn p (a ++ c :: b) = a :: splitOn p b := by
  induction a with
  | nil => simp [splitOn, hc]
  | cons x a ih =>
    simp only [List.all_cons, Bool.and_eq_true, Bool.not_eq_true'] at ha
    rw [List.cons_append, splitOn, if_neg (by simp [ha.1]), ih ha.2]

theorem stripChars_of_all_digits (cs : List Char)
    (h : cs.all isAsciiDigit = true) : stripChars cs = cs := by
  have hspace : ∀ c ∈ cs, isPySpace c = false := by
    intro c hc
    have hd := List.all_eq_true.mp h c hc
    simp only [isAsciiDigit, Bool.and_eq_true, decide_eq_true_eq] at hd
    obtain ⟨h0, h9⟩ := hd
    simp only [isPySpace, Bool.or_eq_false_iff, beq_eq_false_iff_ne, ne_eq]
    refine ⟨⟨⟨⟨⟨?_, ?_⟩, ?_⟩, ?_⟩, ?_⟩, ?_⟩ <;> intro he <;> subst he <;>
      revert h0 h9 <;> decide
  have h1 : cs.dropWhile isPySpace = cs := by
    cases cs with
    | nil => rfl
    | cons c cs =>
      rw [List.dropWhile_cons, if_neg (by simp [hspace c (by simp)])]
  rw [stripChars, h1]
  have h2 : cs.reverse.dropWhile isPySpace = cs.reverse := by
    cases hr : cs.reverse with
    | nil => rfl
    | cons c cs' =>
      have hc : c ∈ cs := by
        have : c ∈ cs.reverse := by rw [hr]; simp
        simpa using this
      rw [List.dropWhile_cons, if_neg (by simp [hspace c hc])]
  rw [h2, List.reverse_reverse]

theorem isAsciiDigit_ne_sign {c : Char} (h : isAsciiDigit c = true) :
    c ≠ '+' ∧ c ≠ '-' := by
  constructor <;> intro he <;> subst he <;> simp [isAsciiDigit] at h

/-- `int(...)` succeeds on a nonempty all-digit run and returns its value. -/
theorem pyIntChars_of_digits (cs : List Char) (h : pyIsDigit cs = true) :
    pyIntChars cs = some (digitsVal cs) := by
  simp only [pyIsDigit, Bool.and_eq_true, Bool.not_eq_true'] at h
  obtain ⟨hne, hall⟩ := h
  rw [pyIntChars, stripChars_of_all_digits cs hall]
  cases cs with
  | nil => simp at hne
  | cons c ds =>
    have hc : isAsciiDigit c = true := by
      have := List.all_eq_true.mp hall c (by simp)
      simpa using this
    obtain ⟨h1, h2⟩ := isAsciiDigit_ne_sign hc
    rw [pyIntStripped, if_neg h1, if_neg h2]
    simp [digitsOnly, hall]

/-! ## Data model (`SetlistItem`, document state) -/

/-- `SetlistItem` (src/main.py lines 21-26). -/
structure SetlistItem where
  title : String
  description : String
  duration : String
  is_mc : Bool
deriving DecidableEq

/-- The document-level state owned by the editing session: the artist
selection, the three date widgets, the event field and the ordered item
rows of the table (src/main.py widget state consumed by save/load and the
exporters). -/
structure DocState where
  artist : String
  year : String
  month : String
  day : String
  event : String
  items : List SetlistItem
deriving DecidableEq

/-- JSON values as produced by `json.load` (model). -/
inductive JValue where
  | jnull
  | jbool (b : Bool)
  | jnum (n : Int)
  | jstr (s : String)
  | jarr (xs : List JValue)
  | jobj (fields : List (String × JValue))

/-- Python truthiness of a JSON value. -/
def jTruthy : JValue → Bool
  | .jnull => false
  | .jbool b => b
  | .jnum n => n != 0
  | .jstr s => s != ""
  | .jarr xs => !xs.isEmpty
  | .jobj fs => !fs.isEmpty

/-- `dict.get` on a decoded JSON object (first binding of the key). -/
def jget (fields : List (String × JValue)) (key : String) : Option JValue :=
  (fields.find? (fun p => p.1 = key)).map (fun p => p.2)

/-- `dict.get` with a default. -/
def jgetD (fields : List (String × JValue)) (key : String) (dflt : JValue) : JValue :=
  (jget fields key).getD dflt

/-- `SetlistItem.to_dict` (src/main.py lines 28-34). -/
def to_dict (it : SetlistItem) : JValue :=
  .jobj [("title", .jstr it.title), ("description", .jstr it.description),
         ("duration", .jstr it.duration), ("is_mc", .jbool it.is_mc)]

/-- Coerce a JSON value to the string expected by a Qt text setter; a
non-string is a (propagated) `TypeError`. -/
def asStr : JValue → Except String String
  | .jstr s => .ok s
  | _ => .error "TypeError: str"

/-- Coerce a JSON value to a boolean field. -/
def asBool : JValue → Except String Bool
  | .jbool b => .ok b
  | _ => .error "TypeError: bool"

/-- `SetlistItem.from_dict` (src/main.py lines 36-43): missing fields
default to `""` / `false`; a non-object raises (`AttributeError` on
`.get`). -/
def from_dict : JValue → Except String SetlistItem
  | .jobj fields => do
    let t ← asStr (jgetD fields "title" (.jstr ""))
    let de ← asStr (jgetD fields "description" (.jstr ""))
    let du ← asStr (jgetD fields "duration" (.jstr ""))
    let mc ← asBool (jgetD fields "is_mc" (.jbool false))
    return ⟨t, de, du, mc⟩
  | _ => .error "AttributeError: get"

/-- The payload built by `SetlistApp._write_to_file` (src/main.py lines
612-623): the serialized form of a document. -/
def data_to_save (st : DocState) : JValue :=
  .jobj [("artist", .jstr st.artist), ("year", .jstr st.year),
         ("month", .jstr st.month), ("day", .jstr st.day),
         ("event", .jstr st.event),
         ("items", .jarr (st.items.map to_dict))]

/-- The selectable texts of the month combo box (`"1"`..`"12"`,
src/main.py line 184). -/
def monthDomain : List String :=
  ["1", "2", "3", "4", "5", "6", "7", "8", "9", "10", "11", "12"]

/-- The selectable texts of the day combo box (`"1"`..`"31"`,
src/main.py line 190). -/
def dayDomain : List String :=
  ["1", "2", "3", "4", "5", "6", "7", "8", "9", "10", "11", "12", "13", "14",
   "15", "16", "17", "18", "19", "20", "21", "22", "23", "24", "25", "26",
   "27", "28", "29", "30", "31"]

/-- `QComboBox.setCurrentText` on a non-editable combo box: the text is
taken only when it is one of the box's items, otherwise the selection is
unchanged. -/
def setCombo (cur : String) (domain : List String) (v : String) : String :=
  if v ∈ domain then v else cur

/-- Model of `datetime.strptime(s, "%Y/%m/%d")`: three slash-separated
digit runs, a four-digit year and in-range month/day values.  (The real
parser additionally rejects calendar-impossible day/month combinations;
no claim depends on that refinement.) -/
def parseDateYMD (s : String) : Option (Nat × Nat × Nat) :=
  match splitOn (fun c => c == '/') s.data with
  | [ys, ms, ds] =>
    if pyIsDigit ys && pyIsDigit ms && pyIsDigit ds
        && ys.length == 4 && decide (ms.length ≤ 2) && decide (ds.length ≤ 2)
        && decide (1 ≤ digitsVal ys) && decide (1 ≤ digitsVal ms)
        && decide (digitsVal ms ≤ 12) && decide (1 ≤ digitsVal ds)
        && decide (digitsVal ds ≤ 31) then
      some (digitsVal ys, digitsVal ms, digitsVal ds)
    else none
  | _ => none

/-- The legacy `"date"` branch of `load_file` (src/main.py lines 654-661):
the whole attempt is wrapped in `try/except: pass`, so any parse failure
(including a `TypeError` on a non-string) leaves the date fields
untouched. -/
def applyLegacyDate (st : DocState) (v : JValue) : DocState :=
  match v with
  | .jstr s =>
    match parseDateYMD s with
    | some (y, m, d) => { st with year := natStr y, month := natStr m, day := natStr d }
    | none => st
  | _ => st

/-- The artist step of `load_file` (src/main.py lines 647-653): a falsy
artist value is skipped; a truthy string is adopted (and would be added to
the band list); a truthy non-string raises. -/
def setArtist (st : DocState) (fields : List (String × JValue)) : Except String DocState :=
  match jget fields "artist" with
  | none => .ok st
  | some v =>
    if jTruthy v then
      match v with
      | .jstr s => .ok { st with artist := s }
      | _ => .error "TypeError: artist"
    else .ok st

/-- The date step of `load_file` (src/main.py lines 654-666): either the
legacy `"date"` string or the separate `year`/`month`/`day` fields, the
latter applied through the widget setters in source order, so an error
leaves the earlier fields already set. -/
def setDate (st : DocState) (fields : List (String × JValue)) : DocState × Option String :=
  match jget fields "date" with
  | some v => (applyLegacyDate st v, none)
  | none =>
    match jgetD fields "year" (.jstr "") with
    | .jstr y =>
      let stY := { st with year := y }
      match jgetD fields "month" (.jstr "1") with
      | .jstr m =>
        let stM := { stY with month := setCombo stY.month monthDomain m }
        match jgetD fields "day" (.jstr "1") with
        | .jstr d => ({ stM with day := setCombo stM.day dayDomain d }, none)
        | _ => (stM, some "TypeError: day")
      | _ => (stY, some "TypeError: month")
    | _ => (st, some "TypeError: year")

/-- The event step of `load_file` (src/main.py line 667). -/
def setEvent (st : DocState) (fields : List (String × JValue)) : Except String DocState :=
  match jgetD fields "event" (.jstr "") with
  | .jstr e => .ok { st with event := e }
  | _ => .error "TypeError: event"

/-- The item-loading loop of `load_file` (src/main.py lines 669-671): rows
are appended one at a time, so a failure keeps the rows added so far. -/
def loadItems : List JValue → List SetlistItem → List SetlistItem × Option String
  | [], acc => (acc, none)
  | j :: rest, acc =>
    match from_dict j with
    | .ok it => loadItems rest (acc ++ [it])
    | .error e => (acc, some e)

/-- A load failure as surfaced by the `QMessageBox.critical` dialog of
`load_file`: either the `open`/`json.load` call raised (`readError`) or an
exception was raised while interpreting the decoded value
(`shapeError`).  Both carry the underlying cause. -/
inductive LoadErr where
  | readError (cause : String)
  | shapeError (cause : String)
deriving DecidableEq

/-- Interpretation of a decoded JSON value by `load_file` (src/main.py
lines 643-671): the table is cleared first, then the value is read.  A
bare array is the legacy items-only form; an object is the current form;
anything else raises on `.get`.  The returned state is the state at the
moment of return or of the raised exception. -/
def load_json (st : DocState) (j : JValue) : DocState × Option LoadErr :=
  let st1 : DocState := { st with items := [] }
  match j with
  | .jarr xs =>
    match loadItems xs [] with
    | (its, none) => ({ st1 with items := its }, none)
    | (its, some e) => ({ st1 with items := its }, some (.shapeError e))
  | .jobj fields =>
    match setArtist st1 fields with
    | .error e => (st1, some (.shapeError e))
    | .ok st2 =>
      match setDate st2 fields with
      | (st3, some e) => (st3, some (.shapeError e))
      | (st3, none) =>
        match setEvent st3 fields with
        | .error e => (st3, some (.shapeError e))
        | .ok st4 =>
          match jget fields "items" with
          | none => (st4, none)
          | some (.jarr xs) =>
            match loadItems xs [] with
            | (its, none) => ({ st4 with items := its }, none)
            | (its, some e) => ({ st4 with items := its }, some (.shapeError e))
          | some _ => (st4, some (.shapeError "TypeError: items"))
  | _ => (st1, some (.shapeError "AttributeError: get"))

/-- `SetlistApp.load_file` (src/main.py lines 635-677).  `content` is the
result of `open` + `json.load`: `.error` models an I/O or JSON-decoding
failure, which is reported before the document is touched. -/
def load_file (st : DocState) (content : Except String JValue) : DocState × Option LoadErr :=
  match content with
  | .error c => (st, some (.readError c))
  | .ok j => load_json st j

/-! ## Totals and the table-edit handler -/

/-- The aggregation contract of the spec (section 4.2): sum of
`parse_time` over the non-MC items only.  This definition follows the
spec's words and is compared against the code's three consumers. -/
def total_seconds_spec (items : List SetlistItem) : Int :=
  ((items.filter (fun it => !it.is_mc)).map (fun it => parse_time it.duration)).sum

/-- `SetlistApp.update_total_time` (src/main.py lines 417-424): the live
running total iterates over every table row and adds
`parse_time(item.duration)` unconditionally — including MC rows. -/
def update_total_time (items : List SetlistItem) : Int :=
  (items.map (fun it => parse_time it.duration)).sum

/-- The per-cell effect of `SetlistApp.on_item_changed` (src/main.py lines
394-404): column 1 updates the title unless the row is an MC row, column 2
updates the duration, column 3 the description; other columns change
nothing. -/
def apply_edit (it : SetlistItem) (col : Nat) (text : String) : SetlistItem :=
  if col = 1 then (if it.is_mc then it else { it with title := text })
  else if col = 2 then { it with duration := text }
  else if col = 3 then { it with description := text }
  else it

/-- `SetlistApp.on_item_changed` applied to the row list: only the edited
row's backing item is touched. -/
def on_item_changed (items : List SetlistItem) (row col : Nat) (text : String) :
    List SetlistItem :=
  match items.get? row with
  | none => items
  | some it => items.set row (apply_edit it col text)

/-! ## Text rendering (`copy_to_clipboard`) -/

/-- One rendered body line of the clipboard text, in structured form: an
MC line carries its optional parenthesised description, a song line its
1-based song number, title, optionally shown duration and description.
`entryLine` below recovers the exact text of the source. -/
inductive TextEntry where
  | mc (description : String)
  | song (number : Nat) (title : String) (duration : Option String) (description : String)
deriving DecidableEq

/-- The body loop of `copy_to_clipboard` (src/main.py lines 572-588):
walks the rows keeping the song counter and the running total.  The
duration is shown, and the total accumulated, only when `use_duration`
holds and the duration text is nonempty. -/
def renderEntriesAux (ud : Bool) : List SetlistItem → Nat → Int → List TextEntry × Int
  | [], _, tot => ([], tot)
  | it :: rest, cnt, tot =>
    if it.is_mc then
      let r := renderEntriesAux ud rest cnt tot
      (TextEntry.mc it.description :: r.1, r.2)
    else
      let show_dur : Bool := ud && it.duration != ""
      let tot' : Int := if show_dur then tot + parse_time it.duration else tot
      let r := renderEntriesAux ud rest (cnt + 1) tot'
      (TextEntry.song (cnt + 1) it.title (if show_dur then some it.duration else none)
         it.description :: r.1, r.2)

/-- The exact text of one body line (src/main.py lines 576-588). -/
def entryLine : TextEntry → String
  | .mc d => "◆ MC" ++ (if d != "" then " (" ++ d ++ ")" else "")
  | .song n title dur desc =>
    natStr n ++ ". " ++ title
      ++ (match dur with | some d => " (" ++ d ++ ")" | none => "")
      ++ (if desc != "" then " ... " ++ desc else "")

/-- `str.zfill(2)` as used by `get_date_string` for month and day. -/
def zfill2 (s : String) : String :=
  String.mk (List.replicate (2 - s.data.length) '0' ++ s.data)

/-- `SetlistApp.get_date_string` (src/main.py lines 552-556). -/
def get_date_string (st : DocState) : String :=
  st.year ++ "/" ++ zfill2 st.month ++ "/" ++ zfill2 st.day

/-- Width-2 zero padding of a Python integer (negative values keep their
sign and are already at least two characters wide). -/
def pad2Int (n : Int) : List Char :=
  let cs : List Char := if n < 0 then '-' :: natChars (-n).toNat else natChars n.toNat
  if cs.length < 2 then '0' :: cs else cs

/-- `f"{m:02}:{s:02}"` with `m = tot // 60` and `s = tot % 60` (Python
floor division and nonnegative remainder for the positive divisor 60). -/
def fmtMMSS (tot : Int) : String :=
  String.mk (pad2Int (Int.ediv tot 60) ++ ':' :: pad2Int (Int.emod tot 60))

/-- The separator line `"-" * 20`. -/
def sep20 : String := String.mk (List.replicate 20 '-')

/-- The total of the clipboard footer (the `total_seconds` accumulated by
the body loop of `copy_to_clipboard`). -/
def copy_total (ud : Bool) (items : List SetlistItem) : Int :=
  (renderEntriesAux ud items 0 0).2

/-- The full clipboard text assembled by `copy_to_clipboard` (src/main.py
lines 569-593). -/
def copy_text (st : DocState) (ud : Bool) : String :=
  "【" ++ st.artist ++ "】\n"
    ++ "Date: " ++ get_date_string st ++ " / " ++ st.event ++ "\n"
    ++ sep20 ++ "\n"
    ++ String.join (((renderEntriesAux ud st.items 0 0).1).map (fun e => entryLine e ++ "\n"))
    ++ sep20 ++ "\n"
    ++ (if ud then "Total Time: " ++ fmtMMSS (copy_total ud st.items) ++ "\n" else "")

/-- A message box shown to the user. -/
inductive Dialog where
  | info (title msg : String)
  | warning (title msg : String)
  | critical (title msg : String)
deriving DecidableEq

def isWarningB : Dialog → Bool
  | .warning _ _ => true
  | _ => false

/-- Outcome of `copy_to_clipboard`: the clipboard content (if any) and the
dialogs shown. -/
structure CopyOutcome where
  clipboard : Option String
  dialogs : List Dialog
deriving DecidableEq

/-- `SetlistApp.copy_to_clipboard` (src/main.py lines 567-595): an empty
table returns silently — no clipboard write and no dialog at all;
otherwise the text is built, placed on the clipboard, and an information
dialog is shown.  The document state is never modified. -/
def copy_to_clipboard (st : DocState) (ud : Bool) : CopyOutcome :=
  if st.items = [] then ⟨none, []⟩
  else ⟨some (copy_text st ud), [.info "コピー完了" "クリップボードにコピーしました！"]⟩

/-! ## PDF export (`export_pdf`)

All vertical positions are in integer millimetres.  A4 is 210mm x 297mm;
the cursor starts at `height - 60mm = 237`, a page break fires before an
item when the cursor is below `40`, and a fresh page restarts the cursor
at `height - 30mm = 267`.  An MC line advances the cursor by `15`; a song
advances it by `8` (description line, when present) plus `5` (gap to the
rule) plus `15` (gap after the rule). -/

/-- One drawn element of a PDF page, in structured form.  `y` is the
cursor position at which the element's first line is drawn.  A song line
carries the duration only when it is actually drawn (`use_duration` and
nonempty), mirroring `drawRightString`, and the description only when the
extra description line is drawn. -/
inductive PdfEl where
  | header (artist : String) (info : String)
  | mcLine (y : Int) (description : String)
  | songLine (y : Int) (number : Nat) (title : String)
      (duration : Option String) (description : Option String)
deriving DecidableEq

/-- The vertical extent consumed by one item in `export_pdf`. -/
def extent (it : SetlistItem) : Nat :=
  if it.is_mc then 15 else (if it.description != "" then 8 else 0) + 20

/-- The item loop of `export_pdf` (src/main.py lines 704-740): `y` is the
cursor, `cnt` the song counter, `tot` the running total, `cur` the
reversed content of the current page and `pages` the reversed list of
closed pages.  Before each item, if the cursor is below `40`, the page is
closed (`showPage`) and the cursor resets to `267`; the song counter and
total are never reset. -/
def pdfRun (ud : Bool) : List SetlistItem → Int → Nat → Int → List PdfEl →
    List (List PdfEl) → List (List PdfEl) × Int
  | [], _, _, tot, cur, pages => ((cur.reverse :: pages).reverse, tot)
  | it :: rest, y, cnt, tot, cur, pages =>
    let y0 : Int := if y < 40 then 267 else y
    let cur0 : List PdfEl := if y < 40 then [] else cur
    let pages0 : List (List PdfEl) := if y < 40 then cur.reverse :: pages else pages
    if it.is_mc then
      pdfRun ud rest (y0 - 15) cnt tot (.mcLine y0 it.description :: cur0) pages0
    else
      let show_dur : Bool := ud && it.duration != ""
      let tot' : Int := if show_dur then tot + parse_time it.duration else tot
      let y1 : Int := if it.description != "" then y0 - 8 else y0
      pdfRun ud rest (y1 - 5 - 15) (cnt + 1) tot'
        (.songLine y0 (cnt + 1) it.title (if show_dur then some it.duration else none)
           (if it.description != "" then some it.description else none) :: cur0) pages0

/-- The header-info line drawn on page 1 (src/main.py lines 699-702). -/
def headerInfo (st : DocState) : String :=
  "Date: " ++ get_date_string st ++ "   Venue: " ++ st.event

/-- Outcome of `export_pdf`: the pages of the produced document (if any),
the footer total drawn on the last page when `use_duration` holds, and
the dialogs shown. -/
structure PdfOutcome where
  pages : Option (List (List PdfEl))
  footer : Option Int
  dialogs : List Dialog
deriving DecidableEq

/-- `SetlistApp.export_pdf` (src/main.py lines 683-750): an empty table is
rejected up front with a warning dialog and no artifact; otherwise the
title block and header line are drawn on the first page, the items are
laid out by `pdfRun`, and when `use_duration` holds the accumulated total
is drawn once at a fixed position on the last page. -/
def export_pdf (st : DocState) (ud : Bool) : PdfOutcome :=
  if st.items = [] then ⟨none, none, [.warning "警告" "リストが空です！"]⟩
  else
    let r := pdfRun ud st.items 237 0 0 [.header st.artist (headerInfo st)] []
    ⟨some r.1, if ud then some r.2 else none, [.info "成功" "PDFを出力しました！"]⟩

/-- The song number drawn by a PDF element, if it is a song line. -/
def pdfSongNum : PdfEl → Option Nat
  | .songLine _ n _ _ _ => some n
  | _ => none

/-- The song number of a text body line, if it is a song line. -/
def songNum : TextEntry → Option Nat
  | .song n _ _ _ => some n
  | _ => none

/-- Whether a PDF element is the page-1 header block. -/
def isHeaderEl : PdfEl → Bool
  | .header _ _ => true
  | _ => false

/-! ## Pagination abstraction

The page-break behaviour of `export_pdf` depends only on the item extents.
On a page whose cursor starts at `y0`, the item after a consumed band of
`used` millimetres is drawn exactly when `y0 - used ≥ 40`, i.e. when
`used ≤ cap` for the page capacity `cap = y0 - 40`: `197` on page 1
(`y0 = 237`) and `227` on continuation pages (`y0 = 267`).  `chop` takes
the greedy page content, `pcount` counts the page breaks. -/

/-- Greedily consume the extents drawn on one page of capacity `cap`,
`used` being the band already consumed: returns the consumed extents and
the remainder that overflows to later pages. -/
def chop (cap : Nat) : List Nat → Nat → List Nat × List Nat
  | [], _ => ([], [])
  | e :: es, used =>
    if used ≤ cap then
      (e :: (chop cap es (used + e)).1, (chop cap es (used + e)).2)
    else ([], e :: es)

/-- Number of page breaks emitted from a state with capacity `cap` and
`used` consumed; a break opens a continuation page of capacity `227` and
draws the pending item on it. -/
def pcount (cap : Nat) : Nat → List Nat → Nat
  | _, [] => 0
  | used, e :: es => if used ≤ cap then pcount cap (used + e) es else 1 + pcount 227 e es

theorem chop_join (cap : Nat) : ∀ (es : List Nat) (used : Nat),
    (chop cap es used).1 ++ (chop cap es used).2 = es := by
  intro es
  induction es with
  | nil => intro used; rfl
  | cons e es ih =>
    intro used
    rw [chop]
    split
    · simpa using ih (used + e)
    · rfl

theorem chop_snd_suffix (cap : Nat) (es : List Nat) (used : Nat) :
    (chop cap es used).2 <:+ es :=
  ⟨(chop cap es used).1, chop_join cap es used⟩

theorem chop_snd_length_lt (cap : Nat) (e : Nat) (es : List Nat) (used : Nat)
    (h : used ≤ cap) : ((chop cap (e :: es) used).2).length < (e :: es).length := by
  have h1 : (chop cap (e :: es) used).2 = (chop cap es (used + e)).2 := by
    rw [chop, if_pos h]
  rw [h1]
  have := (chop_snd_suffix cap es (used + e)).length_le
  simp only [List.length_cons]
  omega

theorem chop_fst_ne_nil (cap : Nat) (e : Nat) (es : List Nat) (used : Nat)
    (h : used ≤ cap) : (chop cap (e :: es) used).1 ≠ [] := by
  rw [chop, if_pos h]
  simp

/-- The extents consumed on one page keep every item start within the
capacity: every proper front of the consumed list sums to at most `cap`
above `used`. -/
theorem chop_fits (cap : Nat) : ∀ (es : List Nat) (used : Nat), used ≤ cap →
    used + ((chop cap es used).1).dropLast.sum ≤ cap := by
  intro es
  induction es with
  | nil => intro used h; simpa [chop] using h
  | cons e es ih =>
    intro used h
    rw [chop, if_pos h]
    by_cases h2 : used + e ≤ cap
    · have hrec := ih (used + e) h2
      cases ha : (chop cap es (used + e)).1 with
      | nil => simpa using h
      | cons f a2 =>
        rw [ha] at hrec
        simp only [List.dropLast_cons₂, List.sum_cons] at hrec ⊢
        omega
    · have ha : (chop cap es (used + e)).1 = [] := by
        cases es with
        | nil => rfl
        | cons f es2 => rw [chop, if_neg h2]
      rw [ha]
      simpa using h

/-- Maximality of the greedy page: if a front `q` of the remaining items
fits (all its item starts within the capacity), the greedy remainder is a
suffix of what follows `q`. -/
theorem chop_max (cap : Nat) : ∀ (q r : List Nat) (used : Nat),
    used + q.dropLast.sum ≤ cap → (chop cap (q ++ r) used).2 <:+ r := by
  intro q
  induction q with
  | nil => intro r used _; exact chop_snd_suffix cap r used
  | cons e q ih =>
    intro r used h
    have hused : used ≤ cap := by
      have : 0 ≤ (e :: q).dropLast.sum := Nat.zero_le _
      omega
    rw [List.cons_append, chop, if_pos hused]
    cases q with
    | nil => exact chop_snd_suffix cap r (used + e)
    | cons f q2 =>
      apply ih r (used + e)
      simp only [List.dropLast_cons₂, List.sum_cons] at h
      omega

/-- The greedy partition of the extents of continuation pages. -/
def gpc (l : List Nat) : List (List Nat) :=
  match l with
  | [] => []
  | e :: es => (chop 227 (e :: es) 0).1 :: gpc ((chop 227 (e :: es) 0).2)
termination_by l.length
decreasing_by
  exact chop_snd_length_lt 227 e es 0 (by omega)

theorem gpc_cons (e : Nat) (es : List Nat) :
    gpc (e :: es) = (chop 227 (e :: es) 0).1 :: gpc ((chop 227 (e :: es) 0).2) := by
  rw [gpc]

theorem gpc_flatten_aux : ∀ (n : Nat) (l : List Nat), l.length ≤ n → (gpc l).flatten = l := by
  intro n
  induction n with
  | zero =>
    intro l h
    have : l = [] := by cases l with | nil => rfl | cons e es => simp at h
    subst this
    simp [gpc]
  | succ n ih =>
    intro l h
    cases l with
    | nil => simp [gpc]
    | cons e es =>
      rw [gpc_cons, List.flatten_cons]
      have hlt : ((chop 227 (e :: es) 0).2).length < (e :: es).length :=
        chop_snd_length_lt 227 e es 0 (by omega)
      rw [ih _ (by simp only [List.length_cons] at h hlt ⊢; omega), chop_join]

theorem gpc_flatten (l : List Nat) : (gpc l).flatten = l :=
  gpc_flatten_aux l.length l le_rfl

theorem gpc_mem_aux : ∀ (n : Nat) (l : List Nat), l.length ≤ n →
    ∀ t ∈ gpc l, t ≠ [] ∧ t.dropLast.sum ≤ 227 := by
  intro n
  induction n with
  | zero =>
    intro l h
    have : l = [] := by cases l with | nil => rfl | cons e es => simp at h
    subst this
    simp [gpc]
  | succ n ih =>
    intro l h
    cases l with
    | nil => simp [gpc]
    | cons e es =>
      rw [gpc_cons]
      intro t ht
      rcases List.mem_cons.mp ht with h1 | h2
      · subst h1
        refine ⟨chop_fst_ne_nil 227 e es 0 (by omega), ?_⟩
        have := chop_fits 227 (e :: es) 0 (by omega)
        omega
      · have hlt : ((chop 227 (e :: es) 0).2).length < (e :: es).length :=
          chop_snd_length_lt 227 e es 0 (by omega)
        exact ih _ (by simp only [List.length_cons] at h hlt ⊢; omega) t h2

theorem gpc_mem (l : List Nat) :
    ∀ t ∈ gpc l, t ≠ [] ∧ t.dropLast.sum ≤ 227 :=
  gpc_mem_aux l.length l le_rfl

/-- `pcount` counted through the greedy page decomposition. -/
theorem chop_pcount (cap : Nat) : ∀ (es : List Nat) (used : Nat), used ≤ cap →
    pcount cap used es =
      if (chop cap es used).2 = [] then 0 else 1 + pcount 227 0 ((chop cap es used).2) := by
  intro es
  induction es with
  | nil => intro used h; simp [chop, pcount]
  | cons e es ih =>
    intro used h
    rw [pcount, if_pos h, chop, if_pos h]
    by_cases h2 : used + e ≤ cap
    · exact ih (used + e) h2
    · cases es with
      | nil => simp [pcount, chop]
      | cons f es2 =>
        rw [pcount, if_neg h2, chop, if_neg h2]
        have hf : pcount 227 0 (f :: es2) = pcount 227 (0 + f) es2 := by
          rw [pcount, if_pos (by omega)]
        simp only [hf]
        simp

theorem gpc_length_aux : ∀ (n : Nat) (l : List Nat), l.length ≤ n →
    (gpc l).length = pcount 227 0 l + (if l = [] then 0 else 1) := by
  intro n
  induction n with
  | zero =>
    intro l h
    have : l = [] := by cases l with | nil => rfl | cons e es => simp at h
    subst this
    simp [gpc, pcount]
  | succ n ih =>
    intro l h
    cases l with
    | nil => simp [gpc, pcount]
    | cons e es =>
      rw [gpc_cons, List.length_cons]
      have hlt : ((chop 227 (e :: es) 0).2).length < (e :: es).length :=
        chop_snd_length_lt 227 e es 0 (by omega)
      rw [ih _ (by simp only [List.length_cons] at h hlt ⊢; omega)]
      rw [chop_pcount 227 (e :: es) 0 (by omega)]
      by_cases hb : (chop 227 (e :: es) 0).2 = []
      · simp [hb, pcount]
      · simp only [if_neg hb]
        simp
        omega

theorem gpc_length (l : List Nat) :
    (gpc l).length = pcount 227 0 l + (if l = [] then 0 else 1) :=
  gpc_length_aux l.length l le_rfl

/-- Decomposing a suffix of `t ++ X`: it is a suffix of `X`, or a nonempty
suffix of `t` followed by all of `X`. -/
theorem suffix_append_cases (es2 t X : List Nat) (h : es2 <:+ t ++ X) :
    es2 <:+ X ∨ ∃ t2, t2 ≠ [] ∧ t2 <:+ t ∧ es2 = t2 ++ X := by
  induction t with
  | nil => exact Or.inl (by simpa using h)
  | cons c t ih =>
    rw [List.cons_append] at h
    rcases List.suffix_cons_iff.mp h with h1 | h2
    · right
      exact ⟨c :: t, by simp, List.suffix_refl _, by rw [h1, List.cons_append]⟩
    · rcases ih h2 with h3 | ⟨t2, hne, hsuf, heq⟩
      · exact Or.inl h3
      · exact Or.inr ⟨t2, hne, hsuf.trans (List.suffix_cons c t), heq⟩

theorem dropLast_append_ne {u t2 : List Nat} (h : t2 ≠ []) :
    (u ++ t2).dropLast = u ++ t2.dropLast := by
  induction u with
  | nil => simp
  | cons c u ih =>
    have hne : u ++ t2 ≠ [] := by
      intro hc
      rcases List.append_eq_nil.mp hc with ⟨_, h2⟩
      exact h h2
    cases hu : u ++ t2 with
    | nil => exact absurd hu hne
    | cons x xs =>
      rw [List.cons_append, hu, List.dropLast_cons₂, ← hu, ih, List.cons_append]

/-- `fits` passes to nonempty suffixes of a page. -/
theorem fits_of_suffix {t2 t : List Nat} (hsuf : t2 <:+ t) (hne : t2 ≠ [])
    {cap : Nat} (hfit : t.dropLast.sum ≤ cap) : t2.dropLast.sum ≤ cap := by
  obtain ⟨u, rfl⟩ := hsuf
  rw [dropLast_append_ne hne, List.sum_append] at hfit
  omega

/-- Greedy continuation paging never needs more pages than any valid
in-order continuation partition covering a superlist. -/
theorem lb_cont : ∀ (segs : List (List Nat)) (es2 : List Nat),
    (∀ t ∈ segs, t ≠ [] ∧ t.dropLast.sum ≤ 227) → es2 <:+ segs.flatten →
    (gpc es2).length ≤ segs.length := by
  intro segs
  induction segs with
  | nil =>
    intro es2 _ h
    have : es2 = [] := List.suffix_nil.mp (by simpa using h)
    subst this
    simp [gpc]
  | cons t rest ih =>
    intro es2 hprops h
    rw [List.flatten_cons] at h
    rcases suffix_append_cases es2 t rest.flatten h with h1 | ⟨t2, hne, hsuf, rfl⟩
    · have := ih es2 (fun u hu => hprops u (List.mem_cons_of_mem _ hu)) h1
      simp only [List.length_cons]
      omega
    · obtain ⟨htne, htfit⟩ := hprops t (List.mem_cons_self _ _)
      have hfit2 : t2.dropLast.sum ≤ 227 := fits_of_suffix hsuf hne htfit
      cases t2 with
      | nil => exact absurd rfl hne
      | cons e t2' =>
        rw [List.cons_append, gpc_cons, List.length_cons]
        have hb : (chop 227 (e :: (t2' ++ rest.flatten)) 0).2 <:+ rest.flatten := by
          have := chop_max 227 (e :: t2') rest.flatten 0 (by simpa using hfit2)
          simpa using this
        have := ih _ (fun u hu => hprops u (List.mem_cons_of_mem _ hu)) hb
        simp only [List.length_cons]
        omega

/-- A valid in-order pagination of the extent list `es`: consecutive
nonempty pages whose item start positions all stay within the writable
band — capacity `197` on the first page (below the header block) and
`227` on continuation pages.  The last item of a page only needs to start
inside the band; its own extent may overflow (the documented best-effort
limitation). -/
def validPartition (es : List Nat) (segs : List (List Nat)) : Prop :=
  segs.flatten = es ∧ (∀ s ∈ segs, s ≠ []) ∧
  (match segs with
   | [] => True
   | s :: rest => s.dropLast.sum ≤ 197 ∧ ∀ t ∈ rest, t.dropLast.sum ≤ 227)

/-- The page list built by `pdfRun` has exactly `1 + pcount` pages beyond
those already closed, where the cursor encodes the remaining capacity:
`y = 40 + cap - used`. -/
theorem pdfRun_length (ud : Bool) : ∀ (items : List SetlistItem) (y : Int) (cap used : Nat)
    (cnt : Nat) (tot : Int) (cur : List PdfEl) (pages : List (List PdfEl)),
    y = 40 + (cap : Int) - (used : Int) →
    ((pdfRun ud items y cnt tot cur pages).1).length
      = pages.length + 1 + pcount cap used (items.map extent) := by
  intro items
  induction items with
  | nil =>
    intro y cap used cnt tot cur pages hy
    simp [pdfRun, pcount]
  | cons it rest ih =>
    intro y cap used cnt tot cur pages hy
    have hiff : (y < 40) ↔ (cap < used) := by omega
    simp only [pdfRun, List.map_cons, pcount]
    by_cases hb : y < 40
    · have hcu : ¬ used ≤ cap := by omega
      simp only [if_pos hb, if_neg hcu]
      by_cases hmc : it.is_mc
      · have hext : extent it = 15 := by simp [extent, hmc]
        rw [if_pos hmc,
          ih ((267 : Int) - 15) 227 15 cnt tot _ (cur.reverse :: pages) (by omega)]
        rw [hext]
        simp only [List.length_cons]
        omega
      · rw [if_neg hmc]
        by_cases hd : it.description = ""
        · have hext : extent it = 20 := by simp [extent, hmc, hd]
          have hdb : (it.description != "") = false := by simp [hd]
          rw [hdb]
          simp only [Bool.false_eq_true, if_false]
          rw [ih ((267 : Int) - 5 - 15) 227 20 (cnt + 1) _ _ (cur.reverse :: pages) (by omega)]
          rw [hext]
          simp only [List.length_cons]
          omega
        · have hext : extent it = 28 := by simp [extent, hmc, hd]
          have hdb : (it.description != "") = true := by simp [hd]
          rw [hdb]
          simp only [if_true]
          rw [ih ((267 : Int) - 8 - 5 - 15) 227 28 (cnt + 1) _ _ (cur.reverse :: pages) (by omega)]
          rw [hext]
          simp only [List.length_cons]
          omega
    · have hcu : used ≤ cap := by omega
      simp only [if_neg hb, if_pos hcu]
      by_cases hmc : it.is_mc
      · have hext : extent it = 15 := by simp [extent, hmc]
        rw [if_pos hmc, ih (y - 15) cap (used + 15) cnt tot _ pages (by omega)]
        rw [hext]
      · rw [if_neg hmc]
        by_cases hd : it.description = ""
        · have hext : extent it = 20 := by simp [extent, hmc, hd]
          have hdb : (it.description != "") = false := by simp [hd]
          rw [hdb]
          simp only [Bool.false_eq_true, if_false]
          rw [ih (y - 5 - 15) cap (used + 20) (cnt + 1) _ _ pages (by omega)]
          rw [hext]
        · have hext : extent it = 28 := by simp [extent, hmc, hd]
          have hdb : (it.description != "") = true := by simp [hd]
          rw [hdb]
          simp only [if_true]
          rw [ih (y - 8 - 5 - 15) cap (used + 28) (cnt + 1) _ _ pages (by omega)]
          rw [hext]

theorem pcount_eq_gpc (es : List Nat) :
    pcount 197 0 es = (gpc ((chop 197 es 0).2)).length := by
  rw [chop_pcount 197 es 0 (by omega), gpc_length]
  by_cases hb : (chop 197 es 0).2 = []
  · simp [hb, pcount]
  · simp only [if_neg hb]
    omega

/-- The greedy page count `1 + pcount 197 0 es` is the least size of any
valid in-order pagination of `es`. -/
theorem pages_isLeast (es : List Nat) (h : es ≠ []) :
    IsLeast {k | ∃ segs, validPartition es segs ∧ segs.length = k}
      (1 + pcount 197 0 es) := by
  constructor
  · -- membership: the greedy partition itself
    refine ⟨(chop 197 es 0).1 :: gpc ((chop 197 es 0).2), ⟨?_, ?_, ?_⟩, ?_⟩
    · rw [List.flatten_cons, gpc_flatten, chop_join]
    · intro s hs
      rcases List.mem_cons.mp hs with h1 | h2
      · subst h1
        cases es with
        | nil => exact absurd rfl h
        | cons e es2 => exact chop_fst_ne_nil 197 e es2 0 (by omega)
      · exact (gpc_mem _ s h2).1
    · constructor
      · have := chop_fits 197 es 0 (by omega)
        omega
      · intro t ht
        exact (gpc_mem _ t ht).2
    · rw [List.length_cons, pcount_eq_gpc]
      omega
  · -- lower bound
    rintro k ⟨segs, ⟨hflat, hne, hcaps⟩, rfl⟩
    cases segs with
    | nil =>
      exfalso
      apply h
      rw [← hflat]
      rfl
    | cons s rest =>
      obtain ⟨hs197, hrest⟩ := hcaps
      have hsne : s ≠ [] := hne s (List.mem_cons_self _ _)
      have hb : (chop 197 es 0).2 <:+ rest.flatten := by
        have := chop_max 197 s rest.flatten 0 (by omega)
        rw [← List.flatten_cons] at this
        rw [← hflat]
        simpa [List.flatten_cons] using this
      have hlb := lb_cont rest ((chop 197 es 0).2)
        (fun t ht => ⟨hne t (List.mem_cons_of_mem _ ht), hrest t ht⟩) hb
      rw [pcount_eq_gpc]
      simp only [List.length_cons]
      omega

/-- The pages produced by `pdfRun` are the already-closed pages, then the
current page extended, then new pages; elements added by the loop are
never header elements. -/
theorem pdfRun_headers (ud : Bool) : ∀ (items : List SetlistItem) (y : Int) (cnt : Nat)
    (tot : Int) (cur : List PdfEl) (pages : List (List PdfEl)),
    ∃ e0 more,
      (pdfRun ud items y cnt tot cur pages).1 = pages.reverse ++ (cur.reverse ++ e0) :: more
        ∧ (∀ el ∈ e0, isHeaderEl el = false)
        ∧ (∀ p ∈ more, ∀ el ∈ p, isHeaderEl el = false) := by
  intro items
  induction items with
  | nil =>
    intro y cnt tot cur pages
    exact ⟨[], [], by simp [pdfRun], by simp, by simp⟩
  | cons it rest ih =>
    intro y cnt tot cur pages
    simp only [pdfRun]
    by_cases hb : y < 40
    · simp only [if_pos hb]
      by_cases hmc : it.is_mc
      · rw [if_pos hmc]
        obtain ⟨e0, more, heq, he0, hmore⟩ :=
          ih (267 - 15) cnt tot [.mcLine 267 it.description] (cur.reverse :: pages)
        refine ⟨[], (.mcLine 267 it.description :: e0) :: more, ?_, by simp, ?_⟩
        · rw [heq]
          simp
        · intro p hp el hel
          rcases List.mem_cons.mp hp with h1 | h2
          · subst h1
            rcases List.mem_cons.mp hel with h3 | h4
            · subst h3; rfl
            · exact he0 el h4
          · exact hmore p h2 el hel
      · rw [if_neg hmc]
        obtain ⟨e0, more, heq, he0, hmore⟩ :=
          ih ((if it.description != "" then (267 : Int) - 8 else 267) - 5 - 15) (cnt + 1)
            (if ud && it.duration != "" then tot + parse_time it.duration else tot)
            [.songLine 267 (cnt + 1) it.title
              (if ud && it.duration != "" then some it.duration else none)
              (if it.description != "" then some it.description else none)]
            (cur.reverse :: pages)
        refine ⟨[], (PdfEl.songLine 267 (cnt + 1) it.title
            (if ud && it.duration != "" then some it.duration else none)
            (if it.description != "" then some it.description else none) :: e0) :: more,
          ?_, by simp, ?_⟩
        · rw [heq]
          simp
        · intro p hp el hel
          rcases List.mem_cons.mp hp with h1 | h2
          · subst h1
            rcases List.mem_cons.mp hel with h3 | h4
            · subst h3; rfl
            · exact he0 el h4
          · exact hmore p h2 el hel
    · simp only [if_neg hb]
      by_cases hmc : it.is_mc
      · rw [if_pos hmc]
        obtain ⟨e0, more, heq, he0, hmore⟩ :=
          ih (y - 15) cnt tot (.mcLine y it.description :: cur) pages
        refine ⟨.mcLine y it.description :: e0, more, ?_, ?_, hmore⟩
        · rw [heq]
          simp
        · intro el hel
          rcases List.mem_cons.mp hel with h3 | h4
          · subst h3; rfl
          · exact he0 el h4
      · rw [if_neg hmc]
        obtain ⟨e0, more, heq, he0, hmore⟩ :=
          ih ((if it.description != "" then y - 8 else y) - 5 - 15) (cnt + 1)
            (if ud && it.duration != "" then tot + parse_time it.duration else tot)
            (PdfEl.songLine y (cnt + 1) it.title
              (if ud && it.duration != "" then some it.duration else none)
              (if it.description != "" then some it.description else none) :: cur) pages
        refine ⟨PdfEl.songLine y (cnt + 1) it.title
            (if ud && it.duration != "" then some it.duration else none)
            (if it.description != "" then some it.description else none) :: e0, more,
          ?_, ?_, hmore⟩
        · rw [heq]
          simp
        · intro el hel
          rcases List.mem_cons.mp hel with h3 | h4
          · subst h3; rfl
          · exact he0 el h4

/-- The song numbers drawn by `pdfRun`, read across all pages in order,
are the numbers already drawn followed by the consecutive range continuing
the counter over the non-MC items — the counter is never reset, also not
at page breaks. -/
theorem pdfRun_nums (ud : Bool) : ∀ (items : List SetlistItem) (y : Int) (cnt : Nat)
    (tot : Int) (cur : List PdfEl) (pages : List (List PdfEl)),
    ((pdfRun ud items y cnt tot cur pages).1).flatten.filterMap pdfSongNum
      = (pages.reverse.flatten ++ cur.reverse).filterMap pdfSongNum
        ++ List.range' (cnt + 1) (items.countP (fun it => !it.is_mc)) := by
  intro items
  induction items with
  | nil =>
    intro y cnt tot cur pages
    simp [pdfRun, List.flatten_append]
  | cons it rest ih =>
    intro y cnt tot cur pages
    simp only [pdfRun]
    by_cases hb : y < 40
    · simp only [if_pos hb]
      by_cases hmc : it.is_mc
      · rw [if_pos hmc, ih]
        simp [List.countP_cons, hmc, pdfSongNum, List.flatten_append,
          List.filterMap_append]
      · rw [if_neg hmc, ih]
        have hcnt : (List.countP (fun it => !it.is_mc) (it :: rest))
            = List.countP (fun it => !it.is_mc) rest + 1 := by
          simp [List.countP_cons, hmc]
        rw [hcnt, List.range'_succ]
        simp [pdfSongNum, List.flatten_append, List.filterMap_append]
    · simp only [if_neg hb]
      by_cases hmc : it.is_mc
      · rw [if_pos hmc, ih]
        simp [List.countP_cons, hmc, pdfSongNum, List.flatten_append,
          List.filterMap_append]
      · rw [if_neg hmc, ih]
        have hcnt : (List.countP (fun it => !it.is_mc) (it :: rest))
            = List.countP (fun it => !it.is_mc) rest + 1 := by
          simp [List.countP_cons, hmc]
        rw [hcnt, List.range'_succ]
        simp [pdfSongNum, List.flatten_append, List.filterMap_append]

theorem parse_time_empty : parse_time "" = 0 := by decide

/-- The running total accumulated by `pdfRun` when durations are enabled
is the spec aggregate over its items: MC rows contribute nothing and an
empty duration parses to zero. -/
theorem pdfRun_total : ∀ (items : List SetlistItem) (y : Int) (cnt : Nat)
    (tot : Int) (cur : List PdfEl) (pages : List (List PdfEl)),
    (pdfRun true items y cnt tot cur pages).2 = tot + total_seconds_spec items := by
  intro items
  induction items with
  | nil =>
    intro y cnt tot cur pages
    simp [pdfRun, total_seconds_spec]
  | cons it rest ih =>
    intro y cnt tot cur pages
    simp only [pdfRun]
    by_cases hmc : it.is_mc
    · by_cases hb : y < 40 <;>
        simp [hb, hmc, ih, total_seconds_spec]
    · by_cases hd : it.duration = ""
      · have hz : parse_time it.duration = 0 := by rw [hd]; rfl
        by_cases hb : y < 40 <;>
          simp [hb, hmc, hd, ih, total_seconds_spec, hz, parse_time_empty]
      · by_cases hb : y < 40 <;>
          · simp [hb, hmc, hd, ih, total_seconds_spec]
            ring

/-- The song numbers of the clipboard body are the consecutive range
continuing the counter over the non-MC items. -/
theorem renderEntries_nums (ud : Bool) : ∀ (items : List SetlistItem) (cnt : Nat) (tot : Int),
    ((renderEntriesAux ud items cnt tot).1).filterMap songNum
      = List.range' (cnt + 1) (items.countP (fun it => !it.is_mc)) := by
  intro items
  induction items with
  | nil => intro cnt tot; simp [renderEntriesAux]
  | cons it rest ih =>
    intro cnt tot
    simp only [renderEntriesAux]
    by_cases hmc : it.is_mc
    · simp [hmc, ih, songNum, List.countP_cons]
    · have hcnt : (List.countP (fun it => !it.is_mc) (it :: rest))
          = List.countP (fun it => !it.is_mc) rest + 1 := by
        simp [List.countP_cons, hmc]
      simp only [hmc, Bool.false_eq_true, if_false, hcnt, List.range'_succ]
      simp [songNum, ih]

/-- The clipboard running total is the spec aggregate when durations are
enabled. -/
theorem renderEntries_total : ∀ (items : List SetlistItem) (cnt : Nat) (tot : Int),
    (renderEntriesAux true items cnt tot).2 = tot + total_seconds_spec items := by
  intro items
  induction items with
  | nil => intro cnt tot; simp [renderEntriesAux, total_seconds_spec]
  | cons it rest ih =>
    intro cnt tot
    simp only [renderEntriesAux]
    by_cases hmc : it.is_mc
    · simp [hmc, ih, total_seconds_spec]
    · by_cases hd : it.duration = ""
      · simp [hmc, hd, ih, total_seconds_spec, parse_time_empty]
      · simp [hmc, hd, ih, total_seconds_spec]
        ring

/-! ## Claim theorems -/

theorem isColon_of_digit {c : Char} (h : isAsciiDigit c = true) : isColon c = false := by
  simp only [isAsciiDigit, Bool.and_eq_true, decide_eq_true_eq] at h
  obtain ⟨h0, h9⟩ := h
  simp only [isColon, Bool.or_eq_false_iff, beq_eq_false_iff_ne, ne_eq]
  constructor <;> intro he <;> subst he <;> revert h0 h9 <;> decide

/-- C3: `TimeCode.parse` is total and follows exactly the shape rules of
the spec: a two-part split around one colon (ASCII or full-width) with
both parts `int`-parseable gives `M*60 + S`; a single all-digit part gives
the value times 60; every other shape gives `0` — together with the
spec's five concrete examples.  Totality (never raises) is inherent: the
embedding is a total function and every failure path returns `0`. -/
theorem c3_parse_time :
    (∀ (a b : List Char) (m s : Int) (c : Char), isColon c = true →
      a.all (fun x => !isColon x) = true → b.all (fun x => !isColon x) = true →
      pyIntChars a = some m → pyIntChars b = some s →
      parse_time (String.mk (a ++ c :: b)) = m * 60 + s) ∧
    (∀ a : List Char, a.all (fun x => !isColon x) = true → pyIsDigit a = true →
      parse_time (String.mk a) = (digitsVal a : Int) * 60) ∧
    (∀ t : String,
      (¬ ∃ p1 p2, splitOn isColon t.data = [p1, p2] ∧
        (∃ m, pyIntChars p1 = some m) ∧ (∃ s, pyIntChars p2 = some s)) →
      (¬ ∃ p, splitOn isColon t.data = [p] ∧ pyIsDigit p = true) →
      parse_time t = 0) ∧
    (parse_time "" = 0 ∧ parse_time "4" = 240 ∧ parse_time "4:30" = 270 ∧
      parse_time "abc" = 0 ∧ parse_time "1:2:3" = 0) := by
  refine ⟨?_, ?_, ?_, by decide, by decide, by decide, by decide, by decide⟩
  · intro a b m s c hc ha hb hm hs
    have hsp : splitOn isColon (a ++ c :: b) = [a, b] := by
      rw [splitOn_append_sep isColon a b c ha hc, splitOn_of_no_sep isColon b hb]
    show parse_time ⟨a ++ c :: b⟩ = m * 60 + s
    simp only [parse_time, hsp, hm, hs]
  · intro a ha hd
    have hsp : splitOn isColon a = [a] := splitOn_of_no_sep isColon a ha
    show parse_time ⟨a⟩ = (digitsVal a : Int) * 60
    simp only [parse_time, hsp, hd, if_true, pyIntChars_of_digits a hd]
    simp
  · intro t h2 h1
    rcases hs : splitOn isColon t.data with _ | ⟨p1, _ | ⟨p2, _ | ⟨p3, ps⟩⟩⟩
    · simp only [parse_time, hs]
    · simp only [parse_time, hs]
      have : ¬ pyIsDigit p1 = true := fun hd => h1 ⟨p1, hs, hd⟩
      rw [if_neg this]
    · simp only [parse_time, hs]
      cases hm : pyIntChars p1 with
      | none => rfl
      | some m =>
        cases hsv : pyIntChars p2 with
        | none => rfl
        | some s => exact absurd ⟨p1, p2, hs, ⟨m, hm⟩, ⟨s, hsv⟩⟩ h2
    · simp only [parse_time, hs]

theorem c3_witness : parse_time (String.mk (['4'] ++ ':' :: ['3', '0'])) = 4 * 60 + 30 :=
  c3_parse_time.1 ['4'] ['3', '0'] 4 30 ':' (by decide) (by decide) (by decide)
    (by decide) (by decide)

theorem pad2_all_digits (k : Nat) : (pad2 k).all isAsciiDigit = true := by
  rw [pad2]
  split
  · simp only [List.all_cons, natChars_all_digits k, Bool.and_true]
    decide
  · exact natChars_all_digits k

theorem pad2_ne_nil (k : Nat) : pad2 k ≠ [] := by
  rw [pad2]
  split
  · simp
  · exact natChars_ne_nil k

theorem digitsVal_cons_zero (cs : List Char) : digitsVal ('0' :: cs) = digitsVal cs := rfl

theorem pyIntChars_pad2 (k : Nat) : pyIntChars (pad2 k) = some (k : Int) := by
  have hd : pyIsDigit (pad2 k) = true := by
    simp only [pyIsDigit, Bool.and_eq_true, Bool.not_eq_true']
    exact ⟨by simp [List.isEmpty_iff, pad2_ne_nil k], pad2_all_digits k⟩
  rw [pyIntChars_of_digits _ hd]
  have hv : digitsVal (pad2 k) = k := by
    rw [pad2]
    split
    · rw [digitsVal_cons_zero, digitsVal_natChars]
    · rw [digitsVal_natChars]
  rw [hv]
  rfl

theorem pad2_colon_free (k : Nat) : (pad2 k).all (fun x => !isColon x) = true := by
  rw [List.all_eq_true]
  intro c hc
  have := List.all_eq_true.mp (pad2_all_digits k) c hc
  simp [isColon_of_digit (by simpa using this)]

/-- C8: formatting a nonnegative number of seconds as zero-padded `MM:SS`
(minutes unbounded) and parsing the result returns the same number. -/
theorem c8_format_roundtrip (n : Nat) : parse_time (format_time n) = (n : Int) := by
  have hsp : splitOn isColon (pad2 (n / 60) ++ ':' :: pad2 (n % 60))
      = [pad2 (n / 60), pad2 (n % 60)] := by
    rw [splitOn_append_sep isColon _ _ ':' (pad2_colon_free _) (by decide),
      splitOn_of_no_sep isColon _ (pad2_colon_free _)]
  show parse_time ⟨pad2 (n / 60) ++ ':' :: pad2 (n % 60)⟩ = (n : Int)
  simp only [parse_time, hsp, pyIntChars_pad2]
  have := Nat.div_add_mod n 60
  push_cast
  omega

/-- C1 counterexample: for the spec's own two-item document the claim says
every consumer of the total — including the live running total of
`update_total_time` — computes 60 seconds, but `update_total_time` sums
over all rows without skipping MC items and yields 360. -/
theorem c1_counterexample :
    update_total_time [⟨"A", "", "1:00", false⟩, ⟨"MC", "", "5:00", true⟩] = 360 ∧
    total_seconds_spec [⟨"A", "", "1:00", false⟩, ⟨"MC", "", "5:00", true⟩] = 60 ∧
    update_total_time [⟨"A", "", "1:00", false⟩, ⟨"MC", "", "5:00", true⟩]
      ≠ total_seconds_spec [⟨"A", "", "1:00", false⟩, ⟨"MC", "", "5:00", true⟩] := by
  refine ⟨by decide, by decide, by decide⟩

/-- C1 (amended): the clipboard footer and the PDF footer both equal the
sum of `parse_time(duration)` over exactly the non-MC items (MC durations
never contribute, and a skipped empty duration contributes zero anyway);
the live running total of `update_total_time`, by contrast, sums the
parsed durations of all rows, MC rows included. -/
theorem c1_total_aggregation :
    (∀ items : List SetlistItem, copy_total true items = total_seconds_spec items) ∧
    (∀ st : DocState, st.items ≠ [] →
      (export_pdf st true).footer = some (total_seconds_spec st.items)) ∧
    (∀ items : List SetlistItem,
      update_total_time items = (items.map (fun it => parse_time it.duration)).sum) := by
  refine ⟨?_, ?_, fun items => rfl⟩
  · intro items
    rw [copy_total, renderEntries_total]
    omega
  · intro st h
    rw [export_pdf, if_neg h]
    show some (pdfRun true st.items 237 0 0 _ []).2 = _
    rw [pdfRun_total]
    norm_num

theorem c1_witness :
    (export_pdf ⟨"a", "2024", "1", "1", "e", [⟨"T", "", "1:30", false⟩]⟩ true).footer
      = some (total_seconds_spec [⟨"T", "", "1:30", false⟩]) :=
  c1_total_aggregation.2.1 ⟨"a", "2024", "1", "1", "e", [⟨"T", "", "1:30", false⟩]⟩
    (by decide)

/-- C4 counterexample: copying an empty document is rejected before any
work, but silently — `copy_to_clipboard` returns without showing any
dialog, so the rejection is not reported to the user as a warning as the
claim states for both operations. -/
theorem c4_counterexample :
    (copy_to_clipboard ⟨"B", "2024", "1", "1", "", []⟩ true).clipboard = none ∧
    (copy_to_clipboard ⟨"B", "2024", "1", "1", "", []⟩ true).dialogs = [] ∧
    ((copy_to_clipboard ⟨"B", "2024", "1", "1", "", []⟩ true).dialogs.any isWarningB)
      = false := by
  refine ⟨by decide, by decide, by decide⟩

/-- C4 (amended): on an empty document both operations reject the request
before any work — no clipboard text, no PDF pages, no footer, and being
pure functions of the document they modify no state; the PDF export
reports the rejection with a warning dialog while the text copy returns
silently with no dialog at all. -/
theorem c4_empty_guard (st : DocState) (ud : Bool) (h : st.items = []) :
    (copy_to_clipboard st ud).clipboard = none ∧
    (copy_to_clipboard st ud).dialogs = [] ∧
    (export_pdf st ud).pages = none ∧ (export_pdf st ud).footer = none ∧
    (export_pdf st ud).dialogs = [Dialog.warning "警告" "リストが空です！"] := by
  rw [copy_to_clipboard, if_pos h, export_pdf, if_pos h]
  exact ⟨rfl, rfl, rfl, rfl, rfl⟩

theorem c4_witness :
    (copy_to_clipboard ⟨"b", "2024", "1", "1", "", []⟩ false).clipboard = none ∧
    (copy_to_clipboard ⟨"b", "2024", "1", "1", "", []⟩ false).dialogs = [] ∧
    (export_pdf ⟨"b", "2024", "1", "1", "", []⟩ false).pages = none ∧
    (export_pdf ⟨"b", "2024", "1", "1", "", []⟩ false).footer = none ∧
    (export_pdf ⟨"b", "2024", "1", "1", "", []⟩ false).dialogs
      = [Dialog.warning "警告" "リストが空です！"] :=
  c4_empty_guard ⟨"b", "2024", "1", "1", "", []⟩ false rfl

/-- C9: in both the text rendering and the PDF layout the song numbers
form the single consecutive 1-based range over the non-MC items in
document order — MC entries receive no number and, in the PDF, the
numbering is continuous across page breaks (the flattened page sequence
carries the uninterrupted range); the spec's `[MC, A, MC, B]` example
numbers A with 1 and B with 2 in that order. -/
theorem c9_song_numbering :
    (∀ (ud : Bool) (items : List SetlistItem),
      ((renderEntriesAux ud items 0 0).1).filterMap songNum
        = List.range' 1 (items.countP (fun it => !it.is_mc))) ∧
    (∀ (ud : Bool) (st : DocState) (pages : List (List PdfEl)),
      (export_pdf st ud).pages = some pages →
      pages.flatten.filterMap pdfSongNum
        = List.range' 1 (st.items.countP (fun it => !it.is_mc))) ∧
    ((renderEntriesAux false
        [⟨"MC", "", "", true⟩, ⟨"A", "", "", false⟩, ⟨"MC", "", "", true⟩,
         ⟨"B", "", "", false⟩] 0 0).1).filterMap
      (fun e => match e with | TextEntry.song n t _ _ => some (n, t) | _ => none)
      = [(1, "A"), (2, "B")] := by
  refine ⟨?_, ?_, by decide⟩
  · intro ud items
    rw [renderEntries_nums]
  · intro ud st pages hp
    by_cases h : st.items = []
    · rw [export_pdf, if_pos h] at hp
      exact absurd hp (by simp)
    · rw [export_pdf, if_neg h] at hp
      have hp2 : (pdfRun ud st.items 237 0 0 [.header st.artist (headerInfo st)] []).1
          = pages := by
        simpa using hp
      rw [← hp2, pdfRun_nums]
      simp [pdfSongNum]

def stW : DocState := ⟨"a", "2024", "1", "1", "e", [⟨"T", "", "", false⟩]⟩

theorem c9_witness :
    ∃ pages, (export_pdf stW false).pages = some pages ∧
      pages.flatten.filterMap pdfSongNum
        = List.range' 1 (stW.items.countP (fun it => !it.is_mc)) :=
  ⟨_, rfl, c9_song_numbering.2.1 false stW _ rfl⟩

/-- C2: for a nonempty document the PDF export produces pages by the
break-before-item rule, and the number of emitted pages is the least size
of any valid in-order pagination of the item extents: each page's items
all start within the writable band (capacity 197 below the header block
on page 1, 227 on continuation pages, the last item of a page being
allowed to overflow per the documented best-effort limitation), and the
header/title block occupies space on page 1 only — it appears on the
first page and on no continuation page. -/
theorem c2_pagination (st : DocState) (ud : Bool) (h : st.items ≠ []) :
    ∃ pages, (export_pdf st ud).pages = some pages ∧
      IsLeast {k | ∃ segs, validPartition (st.items.map extent) segs ∧ segs.length = k}
        pages.length ∧
      ∃ p1 rest2, pages = p1 :: rest2 ∧ PdfEl.header st.artist (headerInfo st) ∈ p1 ∧
        ∀ p ∈ rest2, ∀ el ∈ p, isHeaderEl el = false := by
  rw [export_pdf, if_neg h]
  refine ⟨_, rfl, ?_, ?_⟩
  · have hlen := pdfRun_length ud st.items 237 197 0 0 0
      [.header st.artist (headerInfo st)] [] (by norm_num)
    rw [hlen]
    have hne : st.items.map extent ≠ [] := by
      intro hc
      exact h (List.map_eq_nil_iff.mp hc)
    have := pages_isLeast (st.items.map extent) hne
    simpa using this
  · obtain ⟨e0, more, heq, he0, hmore⟩ := pdfRun_headers ud st.items 237 0 0
      [.header st.artist (headerInfo st)] []
    refine ⟨PdfEl.header st.artist (headerInfo st) :: e0, more, ?_, by simp, hmore⟩
    rw [heq]
    simp

theorem c2_witness :
    ∃ pages, (export_pdf ⟨"a", "2024", "1", "1", "e", [⟨"T", "", "", false⟩]⟩ false).pages
        = some pages ∧
      IsLeast {k | ∃ segs,
          validPartition (([⟨"T", "", "", false⟩] : List SetlistItem).map extent) segs ∧
            segs.length = k} pages.length ∧
      ∃ p1 rest2, pages = p1 :: rest2 ∧
        PdfEl.header "a"
          (headerInfo ⟨"a", "2024", "1", "1", "e", [⟨"T", "", "", false⟩]⟩) ∈ p1 ∧
        ∀ p ∈ rest2, ∀ el ∈ p, isHeaderEl el = false :=
  c2_pagination ⟨"a", "2024", "1", "1", "e", [⟨"T", "", "", false⟩]⟩ false (by decide)

theorem get?_eq_get_of_lt : ∀ (l : List SetlistItem) (i : Nat) (h : i < l.length),
    l.get? i = some (l.get ⟨i, h⟩) := by
  intro l
  induction l with
  | nil => intro i h; simp at h
  | cons x xs ih =>
    intro i h
    cases i with
    | zero => rfl
    | succ j => exact ih j (by simpa using h)

theorem set_get_self : ∀ (l : List SetlistItem) (i : Nat) (h : i < l.length),
    l.set i (l.get ⟨i, h⟩) = l := by
  intro l
  induction l with
  | nil => intro i h; simp at h
  | cons x xs ih =>
    intro i h
    cases i with
    | zero => rfl
    | succ j => exact congrArg (fun l => x :: l) (ih j (by simpa using h))

theorem get?_set_ne : ∀ (l : List SetlistItem) (i j : Nat) (a : SetlistItem), i ≠ j →
    (l.set i a).get? j = l.get? j := by
  intro l
  induction l with
  | nil => intro i j a h; simp
  | cons x xs ih =>
    intro i j a h
    cases i with
    | zero =>
      cases j with
      | zero => exact absurd rfl h
      | succ j2 => rfl
    | succ i2 =>
      cases j with
      | zero => rfl
      | succ j2 => exact ih i2 j2 a (by omega)

theorem get?_set_self : ∀ (l : List SetlistItem) (i : Nat) (a : SetlistItem),
    i < l.length → (l.set i a).get? i = some a := by
  intro l
  induction l with
  | nil => intro i a h; simp at h
  | cons x xs ih =>
    intro i a h
    cases i with
    | zero => rfl
    | succ i2 => exact ih i2 a (by simpa using h)

/-- C10: a delivered cell edit touches only the edited row's backing item.
An edit in column 1 (name/content) is silently ignored for an MC row and
updates the title of a song row; an edit in column 2 (duration) or column
3 (description) updates that field for every item, MC or not; the items
of all other rows are unchanged. -/
theorem c10_cell_edit (items : List SetlistItem) (row col : Nat) (text : String)
    (h : row < items.length) :
    (∀ j, j ≠ row → (on_item_changed items row col text).get? j = items.get? j) ∧
    (col = 1 → (items.get ⟨row, h⟩).is_mc = true →
      on_item_changed items row col text = items) ∧
    (col = 1 → (items.get ⟨row, h⟩).is_mc = false →
      (on_item_changed items row col text).get? row
        = some { items.get ⟨row, h⟩ with title := text }) ∧
    (col = 2 → (on_item_changed items row col text).get? row
        = some { items.get ⟨row, h⟩ with duration := text }) ∧
    (col = 3 → (on_item_changed items row col text).get? row
        = some { items.get ⟨row, h⟩ with description := text }) := by
  have hoc : on_item_changed items row col text
      = items.set row (apply_edit (items.get ⟨row, h⟩) col text) := by
    rw [on_item_changed, get?_eq_get_of_lt items row h]
  refine ⟨?_, ?_, ?_, ?_, ?_⟩
  · intro j hj
    rw [hoc]
    exact get?_set_ne items row j _ (fun he => hj (he ▸ rfl))
  · intro hc hmc
    rw [hoc, apply_edit, if_pos hc, if_pos hmc, set_get_self]
  · intro hc hmc
    rw [hoc, apply_edit, if_pos hc, if_neg (by rw [hmc]; exact Bool.false_ne_true)]
    exact get?_set_self items row _ h
  · intro hc
    subst hc
    rw [hoc, apply_edit, if_neg (by decide), if_pos rfl]
    exact get?_set_self items row _ h
  · intro hc
    subst hc
    rw [hoc, apply_edit, if_neg (by decide), if_neg (by decide), if_pos rfl]
    exact get?_set_self items row _ h

theorem c10_witness :
    (∀ j, j ≠ 0 →
      (on_item_changed [⟨"T", "", "", false⟩] 0 2 "3:00").get? j
        = ([⟨"T", "", "", false⟩] : List SetlistItem).get? j) ∧
    ((2 : Nat) = 1 → (([⟨"T", "", "", false⟩] : List SetlistItem).get
        ⟨0, by decide⟩).is_mc = true →
      on_item_changed [⟨"T", "", "", false⟩] 0 2 "3:00" = [⟨"T", "", "", false⟩]) ∧
    ((2 : Nat) = 1 → (([⟨"T", "", "", false⟩] : List SetlistItem).get
        ⟨0, by decide⟩).is_mc = false →
      (on_item_changed [⟨"T", "", "", false⟩] 0 2 "3:00").get? 0
        = some { ([⟨"T", "", "", false⟩] : List SetlistItem).get ⟨0, by decide⟩ with
            title := "3:00" }) ∧
    ((2 : Nat) = 2 → (on_item_changed [⟨"T", "", "", false⟩] 0 2 "3:00").get? 0
        = some { ([⟨"T", "", "", false⟩] : List SetlistItem).get ⟨0, by decide⟩ with
            duration := "3:00" }) ∧
    ((2 : Nat) = 3 → (on_item_changed [⟨"T", "", "", false⟩] 0 2 "3:00").get? 0
        = some { ([⟨"T", "", "", false⟩] : List SetlistItem).get ⟨0, by decide⟩ with
            description := "3:00" }) :=
  c10_cell_edit [⟨"T", "", "", false⟩] 0 2 "3:00" (by decide)

/-- C5 counterexample: loading a file whose content is the valid JSON
value `5` (malformed for this schema) raises after the table has already
been cleared — the reported failure carries the cause, but the in-memory
document is not left as it was: its one item is gone. -/
theorem c5_counterexample :
    (load_file ⟨"A", "2024", "1", "2", "E", [⟨"T", "", "", false⟩]⟩ (.ok (.jnum 5))).1
      ≠ ⟨"A", "2024", "1", "2", "E", [⟨"T", "", "", false⟩]⟩ ∧
    (load_file ⟨"A", "2024", "1", "2", "E", [⟨"T", "", "", false⟩]⟩ (.ok (.jnum 5))).2
      = some (.shapeError "AttributeError: get") := by
  refine ⟨by decide, by decide⟩

/-- C5 (amended): a load failure is surfaced as a single reportable error
carrying the underlying cause.  When reading or JSON-decoding the file
fails, the in-memory document is left exactly as it was; but when the
content is valid JSON of an unexpected top-level shape, the item sequence
has already been cleared before the failure is raised, so the document is
not restored. -/
theorem c5_load_failure :
    (∀ (st : DocState) (c : String),
      load_file st (.error c) = (st, some (.readError c))) ∧
    (∀ (st : DocState) (j : JValue),
      (∀ xs, j ≠ .jarr xs) → (∀ fs, j ≠ .jobj fs) →
      load_file st (.ok j)
        = ({ st with items := [] }, some (.shapeError "AttributeError: get"))) := by
  constructor
  · intro st c
    rfl
  · intro st j harr hobj
    cases j with
    | jarr xs => exact absurd rfl (harr xs)
    | jobj fs => exact absurd rfl (hobj fs)
    | jnull => rfl
    | jbool b => rfl
    | jnum n => rfl
    | jstr s => rfl

theorem c5_witness :
    load_file ⟨"A", "2024", "1", "2", "E", [⟨"T", "", "", false⟩]⟩ (.ok (.jnum 5))
      = (⟨"A", "2024", "1", "2", "E", []⟩,
        some (.shapeError "AttributeError: get")) :=
  c5_load_failure.2 ⟨"A", "2024", "1", "2", "E", [⟨"T", "", "", false⟩]⟩ (.jnum 5)
    (fun xs hc => by cases hc) (fun fs hc => by cases hc)

/-- C6 counterexample: loading the bare array `[{"title": "X"}]` into a
session whose event field is `"Party"` yields the item titled `"X"`, but
the metadata fields keep their pre-load values — the event is still
`"Party"`, not the default empty string, so the metadata is not "at its
defaults" as the claim states. -/
theorem c6_counterexample :
    (load_file ⟨"B", "2024", "5", "6", "Party", []⟩
        (.ok (.jarr [.jobj [("title", .jstr "X")]]))).1
      = ⟨"B", "2024", "5", "6", "Party", [⟨"X", "", "", false⟩]⟩ ∧
    ("Party" : String) ≠ "" := by
  refine ⟨by decide, by decide⟩

/-- C6 (amended): a bare top-level array is accepted as a legacy
items-only document — the loaded items come from the array, with missing
per-item fields defaulting to empty strings and `false` — but the
document metadata (artist, date components, event) is left unchanged from
the pre-load state rather than reset to defaults. -/
theorem c6_bare_array :
    (∀ (st : DocState) (xs : List JValue) (its : List SetlistItem),
      loadItems xs [] = (its, none) →
      load_file st (.ok (.jarr xs)) = ({ st with items := its }, none)) ∧
    from_dict (.jobj []) = .ok ⟨"", "", "", false⟩ := by
  constructor
  · intro st xs its h
    simp only [load_file, load_json, h]
  · rfl

theorem c6_witness :
    load_file ⟨"B", "2024", "5", "6", "Party", []⟩
        (.ok (.jarr [.jobj [("title", .jstr "X")]]))
      = (⟨"B", "2024", "5", "6", "Party", [⟨"X", "", "", false⟩]⟩, none) :=
  c6_bare_array.1 ⟨"B", "2024", "5", "6", "Party", []⟩ [.jobj [("title", .jstr "X")]]
    [⟨"X", "", "", false⟩] (by decide)

theorem from_dict_to_dict (it : SetlistItem) : from_dict (to_dict it) = .ok it := rfl

theorem loadItems_map_to_dict : ∀ (l acc : List SetlistItem),
    loadItems (l.map to_dict) acc = (acc ++ l, none) := by
  intro l
  induction l with
  | nil => intro acc; simp [loadItems]
  | cons it rest ih =>
    intro acc
    simp only [List.map_cons, loadItems, from_dict_to_dict, ih]
    simp

/-- C7 counterexample: the round-trip fails for a document with an empty
artist — the loader skips a falsy artist value, so deserializing the
serialized document into a session whose artist is `"B"` yields artist
`"B"`, not the document's own empty artist. -/
theorem c7_counterexample :
    (load_file ⟨"B", "1", "1", "1", "", []⟩
        (.ok (data_to_save ⟨"", "2024", "1", "1", "E", [⟨"T", "", "", false⟩]⟩))).1
      ≠ ⟨"", "2024", "1", "1", "E", [⟨"T", "", "", false⟩]⟩ := by
  decide

/-- C7 (amended): serialization followed by deserialization restores the
document exactly — artist, event, date components and the full item
sequence with every field of every item, duration strings included (the
persisted payload does not depend on `use_duration`) — provided the
artist is nonempty (a falsy artist is skipped by the loader) and the
month and day texts are among the selectable combo-box values (a
non-editable combo ignores other texts). -/
theorem c7_roundtrip (st pre : DocState) (ha : st.artist ≠ "")
    (hm : st.month ∈ monthDomain) (hd : st.day ∈ dayDomain) :
    load_file pre (.ok (data_to_save st)) = (st, none) := by
  have hat : jTruthy (.jstr st.artist) = true := by
    simp [jTruthy, ha]
  simp only [load_file, data_to_save, load_json, setArtist, setDate, setEvent,
    jget, jgetD, List.find?, loadItems_map_to_dict]
  simp [hat, setCombo, if_pos hm, if_pos hd]
  rw [loadItems_map_to_dict]
  simp

theorem c7_witness :
    load_file ⟨"B", "1", "1", "1", "", []⟩
        (.ok (data_to_save
          ⟨"A", "2024", "3", "7", "E", [⟨"T", "d", "4:30", false⟩, ⟨"MC", "x", "", true⟩]⟩))
      = (⟨"A", "2024", "3", "7", "E", [⟨"T", "d", "4:30", false⟩, ⟨"MC", "x", "", true⟩]⟩,
        none) :=
  c7_roundtrip
    ⟨"A", "2024", "3", "7", "E", [⟨"T", "d", "4:30", false⟩, ⟨"MC", "x", "", true⟩]⟩
    ⟨"B", "1", "1", "1", "", []⟩ (by decide) (by decide) (by decide)

end SetlistMaker
